import Mathlib

/-!
Shallow embedding of the parsing/reconciliation core of `env-doctor-cli`
(src/core/parser.ts, analyzer.ts, fixer.ts, generator.ts, validation.ts).

Strings are modelled over `List Char`.  The source operates on JavaScript
UTF-16 strings; all inputs relevant here are ASCII, where the two models
agree.  JavaScript's `trim` / `\s` whitespace classes are modelled by their
ASCII portion (space, tab, CR, LF, FF, VT); the Unicode extras never occur
in the claims' inputs and both sides of every theorem use the same model.
-/

namespace EnvDoctor

/-- ASCII part of JavaScript's whitespace class (used by `trim` and `\s`). -/
def isWS (c : Char) : Bool :=
  c = ' ' || c = '\t' || c = '\n' || c = '\r' || c = '\x0b' || c = '\x0c'

/-- JavaScript `String.prototype.trim` on a character list. -/
def trimL (l : List Char) : List Char :=
  ((l.dropWhile isWS).reverse.dropWhile isWS).reverse

/-- Prepend a character onto the current (first) line of a split. -/
def consHead (c : Char) : List (List Char) → List (List Char)
  | [] => [[c]]
  | l :: ls => (c :: l) :: ls

/-- Right fold for `split(/\r?\n/)`.  The boolean records whether the
remaining text begins with `\n`, so that a `\r` directly before it is
consumed as part of the same separator. -/
def splitLinesAux : List Char → Bool × List (List Char)
  | [] => (false, [[]])
  | c :: rest =>
    match splitLinesAux rest with
    | (nlNext, acc) =>
      if c = '\n' then (true, [] :: acc)
      else if c = '\r' then (false, if nlNext then acc else consHead '\r' acc)
      else (false, consHead c acc)

/-- JavaScript `content.split(/\r?\n/)`: split on each `\n`, consuming a
directly preceding `\r` together with it; a lone `\r` stays in its line. -/
def splitLines (l : List Char) : List (List Char) := (splitLinesAux l).2

/-- JavaScript `toUpperCase` (ASCII fragment), as a plain character map so
that the kernel can evaluate it. -/
def jsToUpper (s : String) : String := String.mk (s.data.map Char.toUpper)

/-- JavaScript `Array.prototype.join(sep)`. -/
def joinWith (sep : String) : List String → String
  | [] => ""
  | [s] => s
  | s :: rest => s ++ sep ++ joinWith sep rest

/-- First index of `c` in `l` (JavaScript `indexOf`), `none` for `-1`. -/
def firstIdxOf (c : Char) : List Char → Option Nat
  | [] => none
  | x :: rest => if x = c then some 0 else (firstIdxOf c rest).map (· + 1)

/-- Last index of `c` in `l` (JavaScript `lastIndexOf`), `none` for `-1`. -/
def lastIdxOf (c : Char) : List Char → Option Nat
  | [] => none
  | x :: rest =>
    match lastIdxOf c rest with
    | some i => some (i + 1)
    | none => if x = c then some 0 else none

/-- Substring containment on character lists (JavaScript `includes`). -/
def containsSub (pat : List Char) : List Char → Bool
  | [] => pat.isEmpty
  | c :: rest => pat.isPrefixOf (c :: rest) || containsSub pat rest

/-- Split at the first `=`: `breakAtEq l = some (before, after)` when `l`
contains an `=`. -/
def breakAtEq : List Char → Option (List Char × List Char)
  | [] => none
  | c :: rest =>
    if c = '=' then some ([], rest)
    else
      match breakAtEq rest with
      | none => none
      | some (k, v) => some (c :: k, v)

/-- The regex `/^([^=]+)=(.*)$/` used by parser and generator: the key is
everything before the first `=` (at least one character), and `(.*)$`
forces the value part to contain no line terminator (`.` does not match
`\r` or `\n` and `$` only matches at the end). -/
def regexKeyValue (l : List Char) : Option (List Char × List Char) :=
  match breakAtEq l with
  | none => none
  | some (k, v) =>
    if k.isEmpty then none
    else if v.any (fun c => c = '\r' || c = '\n') then none
    else some (k, v)

/-! ### validation.ts -/

/-- `MAX_LINE_LENGTH` from validation.ts. -/
def MAX_LINE_LENGTH : Nat := 10000

/-- First character of `/^[A-Z_][A-Z0-9_]*$/i`. -/
def isVarHeadChar (c : Char) : Bool := c.isAlpha || c = '_'

/-- Later characters of `/^[A-Z_][A-Z0-9_]*$/i`. -/
def isVarTailChar (c : Char) : Bool := c.isAlpha || c.isDigit || c = '_'

/-- `VALID_VAR_NAME = /^[A-Z_][A-Z0-9_]*$/i` as a whole-string test. -/
def validVarRegex : List Char → Bool
  | [] => false
  | c :: cs => isVarHeadChar c && cs.all isVarTailChar

/-- The reserved-dangerous names from `validateVarName`. -/
def dangerousNames : List String := ["__PROTO__", "CONSTRUCTOR", "PROTOTYPE"]

/-- `validateVarName` from validation.ts: non-empty, matches the variable
grammar, and its uppercased form is not a dangerous name. -/
def validateVarName (s : String) : Bool :=
  !s.isEmpty && validVarRegex s.data && !(dangerousNames.contains (jsToUpper s))

/-- `validateLineLength` from validation.ts returns normally iff the line
does not exceed `MAX_LINE_LENGTH`; `false` models the thrown error. -/
def validateLineLength (line : List Char) : Bool :=
  line.length ≤ MAX_LINE_LENGTH

/-- `.*\)` tail of `/\$\(.*\)/`: a closing `close` is reachable without
crossing a line terminator (`.` does not match `\r`/`\n`). -/
def afterCloses (close : Char) : List Char → Bool
  | [] => false
  | c :: rest =>
    if c = close then true
    else if c = '\n' || c = '\r' then false
    else afterCloses close rest

/-- The regex `/\$\(.*\)/`. -/
def dollarParenMatch : List Char → Bool
  | '$' :: '(' :: rest => afterCloses ')' rest || dollarParenMatch rest
  | _ :: rest => dollarParenMatch rest
  | [] => false

/-- The backquote character (0x60). -/
def backquoteChar : Char := Char.ofNat 96

/-- The pattern matching a pair of backquotes on one line. -/
def backtickMatch : List Char → Bool
  | c :: rest =>
    (c = backquoteChar && afterCloses backquoteChar rest) || backtickMatch rest
  | [] => false

/-- The regex `/<script>/i`. -/
def scriptMatch (l : List Char) : Bool :=
  containsSub "<script>".data (l.map Char.toLower)

/-- The tail `.*rm\s` of the chained-command regexes (case-insensitive
`rm` followed by a whitespace character, reachable without crossing a line
terminator). -/
def rmAfter : List Char → Bool
  | c1 :: c2 :: c3 :: rest =>
    ((c1 = 'r' || c1 = 'R') && (c2 = 'm' || c2 = 'M') && isWS c3)
    || (if c1 = '\n' || c1 = '\r' then false else rmAfter (c2 :: c3 :: rest))
  | _ => false

/-- The regex `/;.*rm\s/i`. -/
def semiRmMatch : List Char → Bool
  | ';' :: rest => rmAfter rest || semiRmMatch rest
  | _ :: rest => semiRmMatch rest
  | [] => false

/-- The regex `/&&.*rm\s/i`. -/
def andRmMatch : List Char → Bool
  | '&' :: '&' :: rest => rmAfter rest || andRmMatch rest
  | _ :: rest => andRmMatch rest
  | [] => false

/-- The regex `/\|\|.*rm\s/i`. -/
def orRmMatch : List Char → Bool
  | '|' :: '|' :: rest => rmAfter rest || orRmMatch rest
  | _ :: rest => orRmMatch rest
  | [] => false

/-- `SUSPICIOUS_PATTERNS` from validation.ts, in source order. -/
def SUSPICIOUS_PATTERNS : List (List Char → Bool) :=
  [dollarParenMatch, backtickMatch, scriptMatch, semiRmMatch, andRmMatch, orRmMatch]

/-- The (single) warning message `checkSuspiciousContent` can return. -/
def suspiciousMsg : String := "Suspicious pattern detected: potential code injection"

/-- The `for (const pattern of SUSPICIOUS_PATTERNS)` loop: return the
message on the first matching pattern. -/
def firstPatternMatch : List (List Char → Bool) → List Char → Option String
  | [], _ => none
  | p :: rest, l => if p l then some suspiciousMsg else firstPatternMatch rest l

/-- `checkSuspiciousContent` from validation.ts. -/
def checkSuspiciousContent (content : String) : Option String :=
  firstPatternMatch SUSPICIOUS_PATTERNS content.data

/-! ### parser.ts -/

/-- `EnvVar` from parser.ts. -/
structure EnvVar where
  key : String
  value : String
  line : Nat
  comment : Option String
  isQuoted : Bool
deriving DecidableEq, Repr

/-- `ParseResult` from parser.ts.  The JavaScript `Record<string, EnvVar>`
is modelled as an association list in object insertion order (all keys are
validated variable names, hence never array-index-like, so JavaScript
enumerates them in insertion order). -/
structure ParseResult where
  /-- The `variables` field (the name is a reserved token in Lean). -/
  vars : List (String × EnvVar)
  raw : String
  lines : List String
deriving DecidableEq, Repr

/-- JavaScript property assignment `obj[k] = v`: overwrite in place if the
key exists, otherwise append. -/
def upsert : List (String × EnvVar) → String → EnvVar → List (String × EnvVar)
  | [], k, v => [(k, v)]
  | (k', v') :: rest, k, v =>
    if k' = k then (k, v) :: rest else (k', v') :: upsert rest k v

/-- JavaScript property read `obj[k]` on the association-list model. -/
def lookupVar : List (String × EnvVar) → String → Option EnvVar
  | [], _ => none
  | (k', v) :: rest, k => if k' = k then some v else lookupVar rest k

/-- The quote-handling block of `parseEnv`: from the trimmed raw value,
produce (value, inline comment, isQuoted).  A value opening with a quote
whose closing quote is not found keeps the literal text with no
inline-comment extraction. -/
def jsUnquotedSplit (value0 : List Char) : List Char × List Char × Bool :=
  match firstIdxOf '#' value0 with
  | some i => (trimL (value0.take i), trimL (value0.drop (i + 1)), false)
  | none => (value0, [], false)

/-- Quoted-value handling of `parseEnv` (the `startsWith` quote branch). -/
def jsQuoteSplit (value0 : List Char) : List Char × List Char × Bool :=
  match value0.head? with
  | some q =>
    if q = '"' || q = '\x27' then
      match lastIdxOf q value0 with
      | some ci =>
        if 0 < ci then
          ((value0.drop 1).take (ci - 1),
           (let rest := trimL (value0.drop (ci + 1))
            if rest.head? = some '#' then trimL (rest.drop 1) else []),
           true)
        else (value0, [], true)
      | none => (value0, [], true)
    else jsUnquotedSplit value0
  | none => jsUnquotedSplit value0

/-- Comment assembly of `parseEnv`: block comments joined by spaces; a
non-empty inline comment is parenthesized after a non-empty block comment;
an empty final comment becomes `undefined`. -/
def combineComments (blockC : List String) (inlineC : String) : Option String :=
  let finalC :=
    if blockC.isEmpty then inlineC
    else
      let blockStr := joinWith " " blockC
      if inlineC.isEmpty then blockStr else blockStr ++ " (" ++ inlineC ++ ")"
  if finalC.isEmpty then none else some finalC

/-- Transient parser state: the variables recorded so far and the pending
block-comment buffer (`currentCommentBlock`). -/
structure ParseState where
  /-- The `variables` map built so far. -/
  vars : List (String × EnvVar)
  commentBlock : List String
deriving DecidableEq, Repr

/-- The record built for a validated key from the raw value and the
pending block comments (the tail of the loop body of `parseEnv`). -/
def recordFor (blockC : List String) (idx : Nat) (key : String) (vRaw : List Char) :
    EnvVar :=
  let value0 := trimL vRaw
  let split := jsQuoteSplit value0
  { key := key
    value := String.mk split.1
    line := idx + 1
    comment := combineComments blockC (String.mk split.2.1)
    isQuoted := split.2.2 }

/-- The key/value branch of the loop body: validate the (trimmed) key and
record the entry. -/
def processKV (st : ParseState) (idx : Nat) (kRaw vRaw : List Char) : ParseState :=
  if !validateVarName (String.mk (trimL kRaw)) then { st with commentBlock := [] }
  else
    { vars := upsert st.vars (String.mk (trimL kRaw))
        (recordFor st.commentBlock idx (String.mk (trimL kRaw)) vRaw)
      commentBlock := [] }

/-- The body of the `lines.forEach` loop in `parseEnv` (`idx` is the
0-based line index).  Console warnings are side effects with no influence
on the result and are not modelled; in particular `checkSuspiciousContent`
is called on the value only to warn. -/
def processLine (st : ParseState) (idx : Nat) (line : List Char) : ParseState :=
  if !validateLineLength line then { st with commentBlock := [] }
  else if (trimL line).isEmpty then { st with commentBlock := [] }
  else if (trimL line).head? = some '#' then
    { st with
      commentBlock := st.commentBlock ++ [String.mk (trimL ((trimL line).drop 1))] }
  else
    match regexKeyValue (trimL line) with
    | none => { st with commentBlock := [] }
    | some (kRaw, vRaw) => processKV st idx kRaw vRaw

/-- The `lines.forEach` loop of `parseEnv`, starting at line index `idx`. -/
def parseLinesFrom (idx : Nat) (st : ParseState) : List (List Char) → ParseState
  | [] => st
  | l :: rest => parseLinesFrom (idx + 1) (processLine st idx l) rest

/-- `parseEnv` from parser.ts. -/
def parseEnv (content : String) : ParseResult :=
  let ls := splitLines content.data
  { vars := (parseLinesFrom 0 ⟨[], []⟩ ls).vars
    raw := content
    lines := ls.map String.mk }

/-! ### analyzer.ts -/

/-- `EnvDifference` from analyzer.ts. -/
structure EnvDifference where
  missing : List String
  extra : List String
  mismatch : List String
  synced : List String
  totalExample : Nat
  totalTarget : Nat
  percentage : Nat
deriving DecidableEq, Repr

/-- Keys of a parse result in insertion order (`Object.keys`). -/
def keysOf (r : ParseResult) : List String := r.vars.map Prod.fst

/-- `new Set(list)` spread back to a list: keep the first occurrence of
each element, in order. -/
def jsSetList : List String → List String
  | [] => []
  | k :: rest => k :: (jsSetList rest).filter (fun x => x ≠ k)

/-- `Math.round((s / t) * 100)` for `0 ≤ s ≤ t`, `t ≠ 0`, computed exactly
over the rationals (round half up); the claims touching `percentage` only
depend on the constant branches, where IEEE evaluation agrees. -/
def mathRound100 (s t : Nat) : Nat := (200 * s + t) / (2 * t)

/-- `analyzeEnv` from analyzer.ts. -/
def analyzeEnv (target template : Option ParseResult) : EnvDifference :=
  match template with
  | none =>
    { missing := []
      extra := match target with | some t => keysOf t | none => []
      mismatch := []
      synced := []
      totalExample := 0
      totalTarget := match target with | some t => (keysOf t).length | none => 0
      percentage := 100 }
  | some tpl =>
    match target with
    | none =>
      { missing := keysOf tpl
        extra := []
        mismatch := []
        synced := []
        totalExample := (keysOf tpl).length
        totalTarget := 0
        percentage := 0 }
    | some tgt =>
      let targetKeys := jsSetList (keysOf tgt)
      let templateKeys := jsSetList (keysOf tpl)
      let missing := templateKeys.filter (fun k => !targetKeys.contains k)
      let extra := targetKeys.filter (fun k => !templateKeys.contains k)
      let synced := templateKeys.filter (fun k => targetKeys.contains k)
      let totalRequired := templateKeys.length
      { missing := missing
        extra := extra
        mismatch := []
        synced := synced
        totalExample := totalRequired
        totalTarget := targetKeys.length
        percentage :=
          if totalRequired = 0 then 100 else mathRound100 synced.length totalRequired }

/-! ### fixer.ts

`fixEnv` validates the path, reads the current content (a missing file
reads as empty), computes the new content, and writes it back.  The I/O
and path validation are not modelled; `fixEnvContent` is the pure content
construction between read and write. -/

/-- `content.endsWith('\n')`. -/
def endsWithNewline (s : String) : Bool := s.data.getLast? = some '\n'

/-- The newline padding step of `fixEnv`. -/
def padContent (content : String) : String :=
  if !content.isEmpty && !endsWithNewline content then content ++ "\n" else content

/-- The section-marker element pushed by `fixEnv` before appended keys. -/
def markerLine : String := "\n# --- Added by env-doctor-cli ---\n"

/-- The lines contributed to `linesToAdd` by one missing key: nothing when
the key is absent from the template, otherwise an optional comment line,
the `key=value` line (value re-wrapped in double quotes when the template
record was quoted), and a blank spacer line. -/
def keyLines (vars : List (String × EnvVar)) (key : String) : List String :=
  match lookupVar vars key with
  | none => []
  | some v =>
    (match v.comment with
     | some c => ["# " ++ c]
     | none => []) ++
    [key ++ "=" ++ (if v.isQuoted then "\"" ++ v.value ++ "\"" else v.value), ""]

/-- The `missingKeys.forEach` accumulation of `fixEnv`. -/
def fixEnvVarLines (missingKeys : List String) (vars : List (String × EnvVar)) :
    List String :=
  missingKeys.foldl (fun acc key => acc ++ keyLines vars key) []

/-- The full `linesToAdd` array of `fixEnv`: the marker is pushed whenever
the (padded) existing content is non-empty. -/
def fixEnvLinesToAdd (content : String) (missingKeys : List String)
    (vars : List (String × EnvVar)) : List String :=
  (if content.isEmpty then [] else [markerLine]) ++ fixEnvVarLines missingKeys vars

/-- The new file content computed by `fixEnv`:
`content + linesToAdd.join('\n')` after newline padding. -/
def fixEnvContent (content : String) (missingKeys : List String)
    (vars : List (String × EnvVar)) : String :=
  let c := padContent content
  c ++ joinWith "\n" (fixEnvLinesToAdd c missingKeys vars)

/-! ### generator.ts -/

/-- The sensitivity token list of `isSensitive`, verbatim from the source
(note the four lowercase entries). -/
def sensitivePatterns : List String :=
  ["KEY", "SECRET", "PASSWORD", "PASS", "TOKEN", "CREDENTIAL", "AUTH",
   "PRIVATE", "SIGNATURE", "hash", "salt", "cert", "connection"]

/-- `isSensitive` from generator.ts: each token tested as a substring of
the uppercased key. -/
def isSensitive (key : String) : Bool :=
  let upperKey := jsToUpper key
  sensitivePatterns.any (fun pat => containsSub pat.data upperKey.data)

/-- The per-line transformation of `generateExample`: pass through blank,
comment, unparseable and invalid-name lines; blank the value of sensitive
keys (keeping the raw key spacing); keep other lines verbatim. -/
def generateLine (line : List Char) : List Char :=
  let trimmed := trimL line
  if trimmed.isEmpty then line
  else if trimmed.head? = some '#' then line
  else
    match regexKeyValue line with
    | none => line
    | some (key, _) =>
      let trimmedKey := String.mk (trimL key)
      if !validateVarName trimmedKey then line
      else if isSensitive trimmedKey then key ++ ['=']
      else line

/-- The content written by `generateExample` (I/O and path validation not
modelled): split on `/\r?\n/`, transform each line, join with `\n`. -/
def generateExampleContent (content : String) : String :=
  joinWith "\n" ((splitLines content.data).map (fun l => String.mk (generateLine l)))

/-! ### Spec-side predicate and concrete fixtures -/

/-- The sensitivity predicate as the spec words it: the key
*case-insensitively contains* the token.  Stated separately from the
source's `isSensitive` so the two can be compared. -/
def specContainsCI (pat s : String) : Bool :=
  containsSub (jsToUpper pat).data (jsToUpper s).data

/-- A 9998-character value (`v` repeated). -/
def longVal : List Char := 'v' :: List.replicate 9997 'v'

/-- A `key=value` line of exactly `MAX_LINE_LENGTH` characters. -/
def longOK : List Char := 'K' :: '=' :: longVal

/-- A `key=value` line of `MAX_LINE_LENGTH + 1` characters. -/
def longBad : List Char := 'K' :: '=' :: 'v' :: longVal

/-- Character data of a file whose third line has exactly the maximum
allowed length, preceded by a record line and a block comment and followed
by another record line. -/
def content10000data : List Char :=
  "A=1".data ++ '\n' :: ("# c".data ++ '\n' :: (longOK ++ '\n' :: "B=2".data))

/-- The boundary file as a string. -/
def content10000 : String := String.mk content10000data

/-- Character data of the same file with the third line one character over
the maximum. -/
def content10001data : List Char :=
  "A=1".data ++ '\n' :: ("# c".data ++ '\n' :: (longBad ++ '\n' :: "B=2".data))

/-- The over-the-boundary file as a string. -/
def content10001 : String := String.mk content10001data

/-! ## Helper lemmas -/

theorem mem_jsSetList (k : String) (l : List String) : k ∈ jsSetList l ↔ k ∈ l := by
  induction l with
  | nil => simp [jsSetList]
  | cons a rest ih =>
    by_cases hk : k = a
    · subst hk; simp [jsSetList]
    · simp [jsSetList, hk, List.mem_filter, ih]

theorem foldl_keyLines (vars : List (String × EnvVar)) (ks : List String)
    (acc : List String) :
    ks.foldl (fun acc key => acc ++ keyLines vars key) acc =
      acc ++ fixEnvVarLines ks vars := by
  induction ks generalizing acc with
  | nil => simp [fixEnvVarLines]
  | cons k rest ih =>
    simp only [fixEnvVarLines, List.foldl_cons, List.nil_append]
    rw [ih (acc ++ keyLines vars k), ih (keyLines vars k)]
    simp

theorem fixEnvVarLines_cons (k : String) (ks : List String)
    (vars : List (String × EnvVar)) :
    fixEnvVarLines (k :: ks) vars = keyLines vars k ++ fixEnvVarLines ks vars := by
  have h := foldl_keyLines vars ks (keyLines vars k)
  simpa [fixEnvVarLines] using h

theorem markerLine_ne_commentLine (c : String) : markerLine ≠ "# " ++ c := by
  intro h
  have h1 : markerLine.data.head? = some '\n' := rfl
  have h2 : ("# " ++ c).data.head? = some '#' := rfl
  rw [h, h2] at h1
  exact absurd h1 (by decide)

theorem markerLine_ne_kvLine (k v : String) : markerLine ≠ k ++ "=" ++ v := by
  intro h
  have he : '=' ∈ (k ++ "=" ++ v).data := by
    show '=' ∈ (k.data ++ "=".data) ++ v.data
    exact List.mem_append_left _ (List.mem_append_right _ (by decide))
  rw [← h] at he
  exact absurd he (by decide)

theorem markerLine_not_mem_keyLines (vars : List (String × EnvVar)) (k : String) :
    markerLine ∉ keyLines vars k := by
  unfold keyLines
  cases lookupVar vars k with
  | none => simp
  | some v =>
    intro hmem
    rcases List.mem_append.mp hmem with h | h
    · cases hc : v.comment with
      | none => rw [hc] at h; simp at h
      | some c =>
        rw [hc] at h
        simp only [List.mem_singleton] at h
        exact markerLine_ne_commentLine c h
    · rcases List.mem_cons.mp h with h | h
      · exact markerLine_ne_kvLine k _ h
      · simp only [List.mem_singleton] at h
        exact absurd h (by decide)

theorem markerLine_not_mem_fixEnvVarLines (ks : List String)
    (vars : List (String × EnvVar)) : markerLine ∉ fixEnvVarLines ks vars := by
  induction ks with
  | nil => simp [fixEnvVarLines]
  | cons k rest ih =>
    rw [fixEnvVarLines_cons]
    intro hmem
    rcases List.mem_append.mp hmem with h | h
    · exact markerLine_not_mem_keyLines vars k h
    · exact ih h

theorem mem_upsert (m : List (String × EnvVar)) (k : String) (v : EnvVar)
    (k' : String) (v' : EnvVar) (h : (k', v') ∈ upsert m k v) :
    (k' = k ∧ v' = v) ∨ (k', v') ∈ m := by
  induction m with
  | nil =>
    simp only [upsert, List.mem_singleton] at h
    left; exact ⟨congrArg Prod.fst h, congrArg Prod.snd h⟩
  | cons p rest ih =>
    simp only [upsert] at h
    split at h
    · rcases List.mem_cons.mp h with h | h
      · left; exact ⟨congrArg Prod.fst h, congrArg Prod.snd h⟩
      · right; exact List.mem_cons_of_mem _ h
    · rcases List.mem_cons.mp h with h | h
      · right; rw [h]; exact List.mem_cons_self _ _
      · rcases ih h with h | h
        · left; exact h
        · right; exact List.mem_cons_of_mem _ h

/-! ## Claim theorems -/

/-- C1: for present record sets A (target) and B (template), every key of B
lies in exactly one of `missing` and `synced`, and no key outside B appears
in either list. -/
theorem analyzeEnv_missing_synced_partition (A B : ParseResult) :
    (∀ k, ¬(k ∈ (analyzeEnv (some A) (some B)).missing ∧
            k ∈ (analyzeEnv (some A) (some B)).synced)) ∧
    (∀ k, (k ∈ (analyzeEnv (some A) (some B)).missing ∨
           k ∈ (analyzeEnv (some A) (some B)).synced) ↔ k ∈ keysOf B) := by
  constructor
  · rintro k ⟨hm, hs⟩
    simp only [analyzeEnv, List.mem_filter] at hm hs
    rw [hs.2] at hm
    exact absurd hm.2 (by decide)
  · intro k
    constructor
    · rintro (h | h) <;>
        · simp only [analyzeEnv, List.mem_filter] at h
          exact (mem_jsSetList k _).mp h.1
    · intro h
      cases hc : (jsSetList (keysOf A)).contains k with
      | true =>
        right
        simp only [analyzeEnv, List.mem_filter]
        exact ⟨(mem_jsSetList k _).mpr h, hc⟩
      | false =>
        left
        simp only [analyzeEnv, List.mem_filter]
        refine ⟨(mem_jsSetList k _).mpr h, ?_⟩
        simpa using hc

/-- C9: reconciling an absent target against a present, non-empty template
returns `missing` equal to the template's full key list, empty `extra` and
`synced`, and percentage 0. -/
theorem analyzeEnv_absent_target (Y : ParseResult) (h : Y.vars ≠ []) :
    (analyzeEnv none (some Y)).missing = keysOf Y ∧
    (analyzeEnv none (some Y)).extra = [] ∧
    (analyzeEnv none (some Y)).synced = [] ∧
    (analyzeEnv none (some Y)).percentage = 0 :=
  ⟨rfl, rfl, rfl, rfl⟩

/-- Witness for C9 at a one-key template. -/
theorem analyzeEnv_absent_target_witness :
    (analyzeEnv none (some ⟨[("A", ⟨"A", "1", 1, none, false⟩)], "A=1", ["A=1"]⟩)).missing
        = ["A"] ∧
    (analyzeEnv none (some ⟨[("A", ⟨"A", "1", 1, none, false⟩)], "A=1", ["A=1"]⟩)).percentage
        = 0 := by
  have h := analyzeEnv_absent_target
    ⟨[("A", ⟨"A", "1", 1, none, false⟩)], "A=1", ["A=1"]⟩ (by decide)
  exact ⟨h.1, h.2.2.2⟩

/-- C10: with an absent target and a present but empty template, the
absent-target branch wins and the percentage is 0; any present target
against the same empty template yields percentage 100. -/
theorem analyzeEnv_absent_target_empty_template (Y : ParseResult) (hY : Y.vars = [])
    (X : ParseResult) :
    (analyzeEnv none (some Y)).percentage = 0 ∧
    (analyzeEnv (some X) (some Y)).percentage = 100 := by
  refine ⟨rfl, ?_⟩
  simp [analyzeEnv, keysOf, hY, jsSetList]

/-- Witness for C10 at an empty template and a one-key target. -/
theorem analyzeEnv_absent_target_empty_template_witness :
    (analyzeEnv none (some ⟨[], "", [""]⟩)).percentage = 0 ∧
    (analyzeEnv (some ⟨[("A", ⟨"A", "1", 1, none, false⟩)], "A=1", ["A=1"]⟩)
        (some ⟨[], "", [""]⟩)).percentage = 100 :=
  analyzeEnv_absent_target_empty_template ⟨[], "", [""]⟩ (by decide)
    ⟨[("A", ⟨"A", "1", 1, none, false⟩)], "A=1", ["A=1"]⟩

/-- C6: parsing `KEY="value" # trailing` yields one record with the quotes
stripped, `isQuoted` set, and inline comment `trailing`. -/
theorem parseEnv_quoted_inline_comment_scenario :
    (parseEnv "KEY=\"value\" # trailing").vars =
      [("KEY", { key := "KEY", value := "value", line := 1,
                 comment := some "trailing", isQuoted := true })] := by
  decide

/-- C3 counterexample: with a non-empty file and an empty missing-key list
nothing is appended for keys, yet the marker line is written; with an empty
file and a key appended, no marker is written. -/
theorem fixEnv_marker_without_append :
    (fixEnvVarLines [] ([] : List (String × EnvVar)) = [] ∧
     markerLine ∈ fixEnvLinesToAdd "EXISTING=1\n" [] [] ∧
     fixEnvContent "EXISTING=1\n" [] [] =
       "EXISTING=1\n\n# --- Added by env-doctor-cli ---\n") ∧
    (fixEnvVarLines ["VAR"] [("VAR", ⟨"VAR", "val", 1, none, false⟩)] = ["VAR=val", ""] ∧
     markerLine ∉ fixEnvLinesToAdd "" ["VAR"] [("VAR", ⟨"VAR", "val", 1, none, false⟩)]) := by
  decide

/-- C3 amended: the marker line appears among the appended lines iff the
existing content is non-empty, regardless of whether any key block is
appended. -/
theorem fixEnv_marker_iff_content_nonempty (content : String) (ks : List String)
    (vars : List (String × EnvVar)) :
    markerLine ∈ fixEnvLinesToAdd content ks vars ↔ content.isEmpty = false := by
  unfold fixEnvLinesToAdd
  cases hc : content.isEmpty with
  | true => simp [hc, markerLine_not_mem_fixEnvVarLines ks vars]
  | false => simp [hc, markerLine_not_mem_fixEnvVarLines ks vars]

/-- C4: the key `MY_HASH` case-insensitively contains the token `hash`,
but `isSensitive` uppercases the key while keeping the lowercase tokens, so
the value survives `generateExample` and parses back as `abc`, not empty. -/
theorem generateExample_lowercase_tokens_dead :
    specContainsCI "hash" "MY_HASH" = true ∧
    isSensitive "MY_HASH" = false ∧
    generateExampleContent "MY_HASH=abc" = "MY_HASH=abc" ∧
    lookupVar (parseEnv (generateExampleContent "MY_HASH=abc")).vars "MY_HASH" =
      some ⟨"MY_HASH", "abc", 1, none, false⟩ ∧
    lookupVar (parseEnv "MY_HASH=abc").vars "MY_HASH" =
      some ⟨"MY_HASH", "abc", 1, none, false⟩ := by
  decide

/-- C2: repairing `EXISTING=1\n` with the single missing key `VAR`
(template value `val`, unquoted) writes the original bytes, a blank line,
the marker line, a blank line, `VAR=val`, and a trailing newline; and in
general each emitted key block is, in order, the optional comment line,
the `key=value` line with the value re-wrapped in double quotes iff the
template record was quoted, and a blank spacer line. -/
theorem fixEnv_append_scenario_and_block_format :
    fixEnvContent "EXISTING=1\n" ["VAR"] [("VAR", ⟨"VAR", "val", 1, none, false⟩)] =
      "EXISTING=1\n\n# --- Added by env-doctor-cli ---\n\nVAR=val\n" ∧
    ∀ (ks : List String) (k : String) (vars : List (String × EnvVar)) (v : EnvVar),
      lookupVar vars k = some v →
      fixEnvVarLines (ks ++ [k]) vars =
        fixEnvVarLines ks vars ++
          ((match v.comment with | some c => ["# " ++ c] | none => []) ++
           [k ++ "=" ++ (if v.isQuoted then "\"" ++ v.value ++ "\"" else v.value),
            ""]) := by
  constructor
  · decide
  · intro ks k vars v hv
    have happ : fixEnvVarLines (ks ++ [k]) vars =
        fixEnvVarLines ks vars ++ keyLines vars k := by
      simp only [fixEnvVarLines, List.foldl_append, List.foldl_cons, List.foldl_nil]
    rw [happ]
    simp only [keyLines, hv]

/-- Witness for C2's per-key block format at a quoted, commented record. -/
theorem fixEnv_block_format_witness :
    fixEnvVarLines (([] : List String) ++ ["QUOTED"])
        [("QUOTED", ⟨"QUOTED", "val", 1, some "Comment", true⟩)] =
      ["# Comment", "QUOTED=\"val\"", ""] := by
  have h := fixEnv_append_scenario_and_block_format.2 [] "QUOTED"
    [("QUOTED", ⟨"QUOTED", "val", 1, some "Comment", true⟩)]
    ⟨"QUOTED", "val", 1, some "Comment", true⟩ rfl
  simpa using h

theorem firstPatternMatch_eq_none (ps : List (List Char → Bool)) (l : List Char) :
    firstPatternMatch ps l = none ↔ ∀ p ∈ ps, p l = false := by
  induction ps with
  | nil => simp [firstPatternMatch]
  | cons p rest ih =>
    by_cases hp : p l
    · simp [firstPatternMatch, hp]
    · simp only [Bool.not_eq_true] at hp
      simp [firstPatternMatch, hp, ih]

theorem firstPatternMatch_some (ps : List (List Char → Bool)) (l : List Char)
    (m : String) (h : firstPatternMatch ps l = some m) : m = suspiciousMsg := by
  induction ps with
  | nil => exact absurd h (by simp [firstPatternMatch])
  | cons p rest ih =>
    unfold firstPatternMatch at h
    split at h
    · exact (Option.some.inj h).symm
    · exact ih h

/-- C8 amended: `checkSuspiciousContent` is total, returns `none` exactly
when none of the six patterns matches, and any returned message is the one
fixed string, so the matched category cannot be read off the result. -/
theorem checkSuspicious_total_fixed_message (content : String) :
    (checkSuspiciousContent content = none ↔
      (dollarParenMatch content.data = false ∧ backtickMatch content.data = false ∧
       scriptMatch content.data = false ∧ semiRmMatch content.data = false ∧
       andRmMatch content.data = false ∧ orRmMatch content.data = false)) ∧
    (∀ m, checkSuspiciousContent content = some m → m = suspiciousMsg) := by
  constructor
  · rw [checkSuspiciousContent, firstPatternMatch_eq_none]
    constructor
    · intro h
      exact ⟨h dollarParenMatch (by simp [SUSPICIOUS_PATTERNS]),
             h backtickMatch (by simp [SUSPICIOUS_PATTERNS]),
             h scriptMatch (by simp [SUSPICIOUS_PATTERNS]),
             h semiRmMatch (by simp [SUSPICIOUS_PATTERNS]),
             h andRmMatch (by simp [SUSPICIOUS_PATTERNS]),
             h orRmMatch (by simp [SUSPICIOUS_PATTERNS])⟩
    · rintro ⟨h1, h2, h3, h4, h5, h6⟩ p hp
      simp only [SUSPICIOUS_PATTERNS, List.mem_cons, List.not_mem_nil, or_false] at hp
      rcases hp with rfl | rfl | rfl | rfl | rfl | rfl <;> assumption
  · intro m hm
    exact firstPatternMatch_some _ _ m hm

/-- Witness for C8's amended statement at a clean and a matching input. -/
theorem checkSuspicious_total_fixed_message_witness :
    checkSuspiciousContent "hello" = none ∧ suspiciousMsg = suspiciousMsg :=
  ⟨(checkSuspicious_total_fixed_message "hello").1.mpr (by decide),
   (checkSuspicious_total_fixed_message "$(x)").2 suspiciousMsg (by decide)⟩

/-- C8 counterexample: `$(x)` matches only the command-substitution
pattern and `<script>` matches only the script-tag pattern, yet
`checkSuspiciousContent` returns the identical value for both, so distinct
matched categories are not distinguishable in the returned value. -/
theorem checkSuspicious_categories_indistinguishable :
    dollarParenMatch "$(x)".data = true ∧ scriptMatch "$(x)".data = false ∧
    scriptMatch "<script>".data = true ∧ dollarParenMatch "<script>".data = false ∧
    checkSuspiciousContent "$(x)" = checkSuspiciousContent "<script>" ∧
    checkSuspiciousContent "$(x)" ≠ none := by
  decide

theorem processKV_vars_valid (st : ParseState) (idx : Nat) (kRaw vRaw : List Char)
    (ih : ∀ kv ∈ st.vars, validateVarName kv.1 = true) :
    ∀ kv ∈ (processKV st idx kRaw vRaw).vars, validateVarName kv.1 = true := by
  intro kv hkv
  unfold processKV at hkv
  split at hkv
  · exact ih kv hkv
  · rename_i hvalid
    rcases mem_upsert _ _ _ kv.1 kv.2 hkv with h | h
    · rw [h.1]
      simpa using hvalid
    · exact ih kv h

theorem processLine_vars_valid (st : ParseState) (idx : Nat) (line : List Char)
    (ih : ∀ kv ∈ st.vars, validateVarName kv.1 = true) :
    ∀ kv ∈ (processLine st idx line).vars, validateVarName kv.1 = true := by
  intro kv hkv
  unfold processLine at hkv
  split at hkv
  · exact ih kv hkv
  · split at hkv
    · exact ih kv hkv
    · split at hkv
      · exact ih kv hkv
      · split at hkv
        · exact ih kv hkv
        · exact processKV_vars_valid st idx _ _ ih kv hkv

theorem parseLinesFrom_vars_valid (lines : List (List Char)) (idx : Nat)
    (st : ParseState) (ih : ∀ kv ∈ st.vars, validateVarName kv.1 = true) :
    ∀ kv ∈ (parseLinesFrom idx st lines).vars, validateVarName kv.1 = true := by
  induction lines generalizing idx st with
  | nil => exact ih
  | cons l rest ihr => exact ihr _ _ (processLine_vars_valid st idx l ih)

/-- C5: every key recorded by `parseEnv` passes the variable-name
validation: it matches `^[A-Za-z_][A-Za-z0-9_]*$` and its uppercased form
is none of `__PROTO__`, `CONSTRUCTOR`, `PROTOTYPE`. -/
theorem parseEnv_keys_validated (content : String) (k : String) (v : EnvVar)
    (h : (k, v) ∈ (parseEnv content).vars) :
    validVarRegex k.data = true ∧ dangerousNames.contains (jsToUpper k) = false := by
  have hv : validateVarName k = true :=
    parseLinesFrom_vars_valid (splitLines content.data) 0 ⟨[], []⟩ (by simp) (k, v) h
  unfold validateVarName at hv
  simp only [Bool.and_eq_true, Bool.not_eq_true'] at hv
  exact ⟨hv.1.2, hv.2⟩

/-- Witness for C5 at the one-record input `A=1`. -/
theorem parseEnv_keys_validated_witness :
    validVarRegex "A".data = true ∧ dangerousNames.contains (jsToUpper "A") = false :=
  parseEnv_keys_validated "A=1" "A" ⟨"A", "1", 1, none, false⟩ (by decide)

theorem parseEnv_vars (content : String) :
    (parseEnv content).vars =
      (parseLinesFrom 0 ⟨[], []⟩ (splitLines content.data)).vars := rfl

theorem mem_longVal (c : Char) (h : c ∈ longVal) : c = 'v' := by
  rcases List.mem_cons.mp h with h | h
  · exact h
  · exact List.eq_of_mem_replicate h

theorem mem_longOK (c : Char) (h : c ∈ longOK) : c = 'K' ∨ c = '=' ∨ c = 'v' := by
  rcases List.mem_cons.mp h with rfl | h
  · exact Or.inl rfl
  rcases List.mem_cons.mp h with rfl | h
  · exact Or.inr (Or.inl rfl)
  · exact Or.inr (Or.inr (mem_longVal c h))

theorem splitLinesAux_noNL_newline (a b : List Char)
    (ha : ∀ c ∈ a, c ≠ '\n' ∧ c ≠ '\r') :
    splitLinesAux (a ++ '\n' :: b) = (a.isEmpty, a :: (splitLinesAux b).2) := by
  induction a with
  | nil => simp [splitLinesAux]
  | cons c a ih =>
    have hc := ha c (List.mem_cons_self c a)
    have ih2 := ih (fun x hx => ha x (List.mem_cons_of_mem c hx))
    simp [splitLinesAux, ih2, hc.1, hc.2, consHead]

theorem splitLinesAux_noNL (a : List Char) (ha : ∀ c ∈ a, c ≠ '\n' ∧ c ≠ '\r') :
    splitLinesAux a = (false, [a]) := by
  induction a with
  | nil => rfl
  | cons c a ih =>
    have hc := ha c (List.mem_cons_self c a)
    have ih2 := ih (fun x hx => ha x (List.mem_cons_of_mem c hx))
    simp [splitLinesAux, ih2, hc.1, hc.2, consHead]

theorem dropWhile_eq_self_of_all (p : Char → Bool) (l : List Char)
    (h : ∀ c ∈ l, p c = false) : l.dropWhile p = l := by
  cases l with
  | nil => rfl
  | cons c cs => simp [List.dropWhile_cons, h c (List.mem_cons_self c cs)]

theorem trimL_eq_self (l : List Char) (h : ∀ c ∈ l, isWS c = false) : trimL l = l := by
  unfold trimL
  rw [dropWhile_eq_self_of_all _ _ h,
    dropWhile_eq_self_of_all _ _ (fun c hc => h c (List.mem_reverse.mp hc)),
    List.reverse_reverse]

theorem firstIdxOf_eq_none (c : Char) (l : List Char) (h : c ∉ l) :
    firstIdxOf c l = none := by
  induction l with
  | nil => rfl
  | cons x rest ih =>
    have hx : ¬x = c := fun he => h (he ▸ List.mem_cons_self x rest)
    simp only [firstIdxOf, if_neg hx]
    rw [ih (fun hm => h (List.mem_cons_of_mem x hm))]
    rfl

theorem longOK_noNL : ∀ c ∈ longOK, c ≠ '\n' ∧ c ≠ '\r' := by
  intro c hc
  rcases mem_longOK c hc with rfl | rfl | rfl <;> exact ⟨by decide, by decide⟩

theorem longOK_noWS : ∀ c ∈ longOK, isWS c = false := by
  intro c hc
  rcases mem_longOK c hc with rfl | rfl | rfl <;> decide

theorem longVal_noWS : ∀ c ∈ longVal, isWS c = false := by
  intro c hc
  rw [mem_longVal c hc]
  decide

theorem longVal_noHash : '#' ∉ longVal := by
  intro h
  exact absurd (mem_longVal '#' h) (by decide)

theorem validateLineLength_longOK : validateLineLength longOK = true := by
  unfold validateLineLength longOK longVal MAX_LINE_LENGTH
  simp only [List.length_cons, List.length_replicate, decide_eq_true_eq]
  omega

theorem validateLineLength_longBad : validateLineLength longBad = false := by
  unfold validateLineLength longBad longVal MAX_LINE_LENGTH
  simp only [List.length_cons, List.length_replicate, decide_eq_false_iff_not]
  omega

set_option maxRecDepth 4000

theorem breakAtEq_longOK : breakAtEq longOK = some (['K'], longVal) := by
  show breakAtEq ('K' :: '=' :: longVal) = _
  rw [breakAtEq]
  rw [if_neg (by decide)]
  rw [breakAtEq]
  rw [if_pos rfl]

theorem regexKeyValue_longOK : regexKeyValue longOK = some (['K'], longVal) := by
  have hany : longVal.any (fun c => c = '\r' || c = '\n') = false := by
    rw [List.any_eq_false]
    intro c hc
    rw [mem_longVal c hc]
    decide
  rw [regexKeyValue, breakAtEq_longOK]
  show (if (['K'] : List Char).isEmpty then none
        else if longVal.any (fun c => c = '\r' || c = '\n') then none
        else some (['K'], longVal)) = some (['K'], longVal)
  rw [hany]
  rw [if_neg (by decide)]
  rw [if_neg (by decide)]

theorem jsQuoteSplit_longVal : jsQuoteSplit longVal = (longVal, [], false) := by
  have hfirst : firstIdxOf '#' longVal = none :=
    firstIdxOf_eq_none '#' longVal longVal_noHash
  have hhead : longVal.head? = some 'v' := rfl
  rw [jsQuoteSplit, jsUnquotedSplit, hfirst, hhead]
  rfl

theorem processKV_longOK (st : ParseState) :
    processKV st 2 ['K'] longVal =
      ⟨upsert st.vars "K"
        ⟨"K", String.mk longVal, 3, combineComments st.commentBlock "", false⟩,
       []⟩ := by
  have htrimK : trimL ['K'] = ['K'] := by decide
  have htrimVal : trimL longVal = longVal := trimL_eq_self _ longVal_noWS
  rw [processKV, recordFor, htrimK, htrimVal, jsQuoteSplit_longVal]
  rfl

theorem processLine_longOK :
    processLine ⟨[("A", ⟨"A", "1", 1, none, false⟩)], ["c"]⟩ 2 longOK =
      ⟨[("A", ⟨"A", "1", 1, none, false⟩),
        ("K", ⟨"K", String.mk longVal, 3, some "c", false⟩)], []⟩ := by
  have htrim : trimL longOK = longOK := trimL_eq_self _ longOK_noWS
  have h1 : ¬((!validateLineLength longOK) = true) := by
    rw [validateLineLength_longOK]
    decide
  have hne : ¬(longOK.isEmpty = true) := by decide
  have hneq : ¬(longOK.head? = some '#') := by decide
  simp only [processLine, if_neg h1, htrim, if_neg hne, if_neg hneq,
    regexKeyValue_longOK, processKV_longOK]
  rfl

theorem processLine_longBad (st : ParseState) (idx : Nat) :
    processLine st idx longBad = { st with commentBlock := [] } := by
  have h1 : (!validateLineLength longBad) = true := by
    rw [validateLineLength_longBad]
    decide
  rw [processLine, if_pos h1]

theorem splitLines_content10000 :
    splitLines content10000data = ["A=1".data, "# c".data, longOK, "B=2".data] := by
  rw [splitLines]
  unfold content10000data
  rw [splitLinesAux_noNL_newline "A=1".data
        ("# c".data ++ '\n' :: (longOK ++ '\n' :: "B=2".data)) (by decide),
    show (splitLinesAux ("# c".data ++ '\n' :: (longOK ++ '\n' :: "B=2".data))).2
        = "# c".data :: (splitLinesAux (longOK ++ '\n' :: "B=2".data)).2 from by
      rw [splitLinesAux_noNL_newline _ _ (by decide)],
    show (splitLinesAux (longOK ++ '\n' :: "B=2".data)).2
        = longOK :: (splitLinesAux "B=2".data).2 from by
      rw [splitLinesAux_noNL_newline _ _ longOK_noNL],
    splitLinesAux_noNL ("B=2".data) (by decide)]

theorem longBad_noNL : ∀ c ∈ longBad, c ≠ '\n' ∧ c ≠ '\r' := by
  intro c hc
  rcases List.mem_cons.mp hc with rfl | hc
  · exact ⟨by decide, by decide⟩
  rcases List.mem_cons.mp hc with rfl | hc
  · exact ⟨by decide, by decide⟩
  rcases List.mem_cons.mp hc with rfl | hc
  · exact ⟨by decide, by decide⟩
  · rw [mem_longVal c hc]
    exact ⟨by decide, by decide⟩

theorem splitLines_content10001 :
    splitLines content10001data = ["A=1".data, "# c".data, longBad, "B=2".data] := by
  rw [splitLines]
  unfold content10001data
  rw [splitLinesAux_noNL_newline "A=1".data
        ("# c".data ++ '\n' :: (longBad ++ '\n' :: "B=2".data)) (by decide),
    show (splitLinesAux ("# c".data ++ '\n' :: (longBad ++ '\n' :: "B=2".data))).2
        = "# c".data :: (splitLinesAux (longBad ++ '\n' :: "B=2".data)).2 from by
      rw [splitLinesAux_noNL_newline _ _ (by decide)],
    show (splitLinesAux (longBad ++ '\n' :: "B=2".data)).2
        = longBad :: (splitLinesAux "B=2".data).2 from by
      rw [splitLinesAux_noNL_newline _ _ longBad_noNL],
    splitLinesAux_noNL ("B=2".data) (by decide)]

theorem parseLines_content10000 :
    parseLinesFrom 0 ⟨[], []⟩ ["A=1".data, "# c".data, longOK, "B=2".data] =
      ⟨[("A", ⟨"A", "1", 1, none, false⟩),
        ("K", ⟨"K", String.mk longVal, 3, some "c", false⟩),
        ("B", ⟨"B", "2", 4, none, false⟩)], []⟩ := by
  have h1 : processLine ⟨[], []⟩ 0 "A=1".data =
      ⟨[("A", ⟨"A", "1", 1, none, false⟩)], []⟩ := by decide
  have h2 : processLine ⟨[("A", ⟨"A", "1", 1, none, false⟩)], []⟩ 1 "# c".data =
      ⟨[("A", ⟨"A", "1", 1, none, false⟩)], ["c"]⟩ := by decide
  have h4 : ∀ kv : EnvVar,
      processLine ⟨[("A", ⟨"A", "1", 1, none, false⟩), ("K", kv)], []⟩ 3 "B=2".data =
        ⟨[("A", ⟨"A", "1", 1, none, false⟩), ("K", kv),
          ("B", ⟨"B", "2", 4, none, false⟩)], []⟩ := fun kv => rfl
  simp only [parseLinesFrom, Nat.reduceAdd, h1, h2, processLine_longOK, h4]

theorem parseLines_content10001 :
    parseLinesFrom 0 ⟨[], []⟩ ["A=1".data, "# c".data, longBad, "B=2".data] =
      ⟨[("A", ⟨"A", "1", 1, none, false⟩),
        ("B", ⟨"B", "2", 4, none, false⟩)], []⟩ := by
  have h1 : processLine ⟨[], []⟩ 0 "A=1".data =
      ⟨[("A", ⟨"A", "1", 1, none, false⟩)], []⟩ := by decide
  have h2 : processLine ⟨[("A", ⟨"A", "1", 1, none, false⟩)], []⟩ 1 "# c".data =
      ⟨[("A", ⟨"A", "1", 1, none, false⟩)], ["c"]⟩ := by decide
  have h3bad : processLine ⟨[("A", ⟨"A", "1", 1, none, false⟩)], []⟩ 3 "B=2".data =
      ⟨[("A", ⟨"A", "1", 1, none, false⟩),
        ("B", ⟨"B", "2", 4, none, false⟩)], []⟩ := by decide
  simp only [parseLinesFrom, Nat.reduceAdd, h1, h2, processLine_longBad, h3bad]

/-- C7: the line of exactly 10000 characters passes the length check and
is parsed normally (its key, full value and pending block comment are
recorded); the 10001-character variant fails the check and is excluded
while the lines before and after it are still parsed, with the pending
comment buffer reset (the following record carries no comment). -/
theorem parseEnv_line_length_boundary :
    validateLineLength longOK = true ∧
    validateLineLength longBad = false ∧
    (parseEnv content10000).vars =
      [("A", ⟨"A", "1", 1, none, false⟩),
       ("K", ⟨"K", String.mk longVal, 3, some "c", false⟩),
       ("B", ⟨"B", "2", 4, none, false⟩)] ∧
    (parseEnv content10001).vars =
      [("A", ⟨"A", "1", 1, none, false⟩),
       ("B", ⟨"B", "2", 4, none, false⟩)] := by
  have hdata0 : content10000.data = content10000data := rfl
  have hdata1 : content10001.data = content10001data := rfl
  have e0 : splitLines content10000.data = ["A=1".data, "# c".data, longOK, "B=2".data] :=
    (congrArg splitLines hdata0).trans splitLines_content10000
  have e1 : splitLines content10001.data = ["A=1".data, "# c".data, longBad, "B=2".data] :=
    (congrArg splitLines hdata1).trans splitLines_content10001
  refine ⟨validateLineLength_longOK, validateLineLength_longBad, ?_, ?_⟩
  · exact (parseEnv_vars content10000).trans
      ((congrArg (fun l => (parseLinesFrom 0 ⟨[], []⟩ l).vars) e0).trans
        (congrArg ParseState.vars parseLines_content10000))
  · exact (parseEnv_vars content10001).trans
      ((congrArg (fun l => (parseLinesFrom 0 ⟨[], []⟩ l).vars) e1).trans
        (congrArg ParseState.vars parseLines_content10001))

end EnvDoctor
